import Mathlib

/-!
Verification of the recording-processing pipeline of the Yeastar backend:
a shallow embedding of `backend/app/services/processing_queue.py` and
`backend/app/services/processing_tracker.py`.

Modelling conventions:
* Wall-clock times (`time.time()`) are modelled as natural numbers; every
  operation that reads the clock takes an explicit `now : Nat` argument.
* Python's insertion-ordered `dict` is modelled as an association list
  `List (String × QueueItem)`; assignment, aliased in-place mutation and
  `pop` are modelled by the `dictSet` / `dictUpdateAlias` / `dictErase`
  functions below.
* `asyncio.Queue` holds references to the same `QueueItem` objects that the
  `_items` dict holds; in this sequential model the queue stores the
  `call_id` keys and the authoritative item state lives in `items`.
* The injected broadcast function is a parameter
  `bf : Option (QueueStatusDict → Except String Unit)`; every operation
  returns, besides its result and the new state, the list of broadcast
  attempts it performed (the source catches and logs any exception the
  broadcast function raises, so the outcome never feeds back).
* The single worker coroutine of `_worker` is split at its suspension
  points into `worker_start` (dequeue, dead-item check, backoff wait, mark
  Processing) and `worker_finish` (apply the processing function's outcome);
  the processing function's outcome is a parameter `res : Except String Unit`.
-/

namespace Yeastar

/-- The `QueueItemStatus` enum from `processing_queue.py`. -/
inductive QueueItemStatus where
  | pending
  | processing
  | completed
  | failed
  | retrying
deriving DecidableEq

/-- The `str` value carried by each enum member. -/
def QueueItemStatus.value : QueueItemStatus → String
  | .pending => "pending"
  | .processing => "processing"
  | .completed => "completed"
  | .failed => "failed"
  | .retrying => "retrying"

/-- The `QueueItem` dataclass. -/
structure QueueItem where
  call_id : String
  recording_file : Option String := none
  force : Bool := false
  status : QueueItemStatus := .pending
  attempt : Nat := 0
  max_retries : Nat := 3
  error_message : Option String := none
  added_at : Nat
  started_at : Option Nat := none
  completed_at : Option Nat := none
  next_retry_at : Option Nat := none
  stage : Option String := none
deriving DecidableEq

/-- The dictionary produced by `QueueItem.to_dict` (it omits `force` and
`next_retry_at`, and renders the status as its string value). -/
structure ItemDict where
  call_id : String
  recording_file : Option String
  status : String
  attempt : Nat
  max_retries : Nat
  error_message : Option String
  added_at : Nat
  started_at : Option Nat
  completed_at : Option Nat
  stage : Option String
deriving DecidableEq

/-- Models `QueueItem.to_dict`. -/
def QueueItem.to_dict (it : QueueItem) : ItemDict :=
  { call_id := it.call_id
    recording_file := it.recording_file
    status := it.status.value
    attempt := it.attempt
    max_retries := it.max_retries
    error_message := it.error_message
    added_at := it.added_at
    started_at := it.started_at
    completed_at := it.completed_at
    stage := it.stage }

/-! ### Insertion-ordered dictionary (Python `dict`) -/

abbrev Dict := List (String × QueueItem)

/-- Models `d[key]` / `key in d`: first (and, for a real dict, only) binding. -/
def dictLookup : Dict → String → Option QueueItem
  | [], _ => none
  | (k, v) :: rest, key => if k = key then some v else dictLookup rest key

/-- Models `d[key] = v`: replace in place if the key exists, else append
(Python dicts keep the original insertion position on re-assignment). -/
def dictSet : Dict → String → QueueItem → Dict
  | [], key, v => [(key, v)]
  | (k, w) :: rest, key, v =>
    if k = key then (k, v) :: rest else (k, w) :: dictSet rest key v

/-- In-place mutation of the object stored at `key`, seen through a shared
reference: replaces the binding when present, no-op when absent. -/
def dictUpdateAlias : Dict → String → QueueItem → Dict
  | [], _, _ => []
  | (k, w) :: rest, key, v =>
    if k = key then (k, v) :: rest else (k, w) :: dictUpdateAlias rest key v

/-- Models `d.pop(key, None)` / `del d[key]`. -/
def dictErase (d : Dict) (key : String) : Dict :=
  d.filter (fun p => p.1 ≠ key)

/-! ### Queue state and operations -/

/-- Python `xs[-n:]`. -/
def lastN (n : Nat) (xs : List α) : List α := xs.drop (xs.length - n)

/-- The history truncation `if len(xs) > 50: xs = xs[-50:]`. -/
def trunc50 (xs : List QueueItem) : List QueueItem :=
  if xs.length > 50 then lastN 50 xs else xs

/-- The dictionary returned by `ProcessingQueue.get_status`. -/
structure QueueStatusDict where
  pending : Nat
  pending_items : List ItemDict
  processing : Option ItemDict
  completed_count : Nat
  failed_count : Nat
  recent_completed : List ItemDict
  recent_failed : List ItemDict
  is_running : Bool
deriving DecidableEq

/-- The dictionary returned by `ProcessingQueue.add`. -/
structure AddResult where
  status : String
  position : Nat
  item : ItemDict
deriving DecidableEq

/-- The dictionary returned by `ProcessingQueue.clear`. -/
structure ClearResult where
  cleared : Nat
  call_ids : List String
deriving DecidableEq

/-- The mutable fields of the `ProcessingQueue` object: the `asyncio.Queue`
(as the list of queued call ids, head = next to be dequeued), the `_items`
lookup dict, `_current`, the `_completed` / `_failed` histories and the
`_running` flag. -/
structure ProcessingQueue where
  queue : List String
  items : Dict
  current : Option QueueItem
  completed : List QueueItem
  failed : List QueueItem
  running : Bool
deriving DecidableEq

/-- Models `ProcessingQueue.__init__`. -/
def ProcessingQueue.init : ProcessingQueue :=
  { queue := [], items := [], current := none, completed := [], failed := [],
    running := false }

/-- The injected `_broadcast_fn` (`None` when unset); it may raise, which the
source logs and swallows. -/
abbrev BroadcastFn := Option (QueueStatusDict → Except String Unit)

/-- Models `ProcessingQueue.get_status`. -/
def ProcessingQueue.get_status (s : ProcessingQueue) : QueueStatusDict :=
  let pending_items :=
    (s.items.filter (fun p =>
      p.2.status = QueueItemStatus.pending ∨ p.2.status = QueueItemStatus.retrying)).map
      (fun p => p.2.to_dict)
  { pending := pending_items.length
    pending_items := pending_items
    processing := s.current.map QueueItem.to_dict
    completed_count := s.completed.length
    failed_count := s.failed.length
    recent_completed := (lastN 10 s.completed).map QueueItem.to_dict
    recent_failed := (lastN 10 s.failed).map QueueItem.to_dict
    is_running := s.running }

/-- Models `ProcessingQueue._broadcast_status`: calls the broadcast function (if
set) on the current status, catching any exception; the returned list is
the log of attempts made (the operation's outcome never depends on it). -/
def ProcessingQueue.broadcast_status (bf : BroadcastFn) (s : ProcessingQueue) :
    List (Except String Unit) :=
  match bf with
  | none => []
  | some f => [f s.get_status]

/-- Loop body of `ProcessingQueue._get_position`: walk the items dict in
insertion order, counting Pending/Retrying entries; report the count when
the sought id is reached inside that branch, else 0. -/
def getPositionAux : Dict → String → Nat → Nat
  | [], _, _ => 0
  | (cid, it) :: rest, call_id, pos =>
    if it.status = QueueItemStatus.pending ∨ it.status = QueueItemStatus.retrying then
      if cid = call_id then pos + 1 else getPositionAux rest call_id (pos + 1)
    else
      getPositionAux rest call_id pos

/-- Models `ProcessingQueue._get_position`. -/
def ProcessingQueue.get_position (s : ProcessingQueue) (call_id : String) : Nat :=
  getPositionAux s.items call_id 0

/-- Models `ProcessingQueue.add`. -/
def ProcessingQueue.add (bf : BroadcastFn) (call_id : String)
    (recording_file : Option String) (force : Bool) (now : Nat)
    (s : ProcessingQueue) :
    AddResult × ProcessingQueue × List (Except String Unit) :=
  match dictLookup s.items call_id with
  | some existing =>
    if existing.status = QueueItemStatus.pending ∨
        existing.status = QueueItemStatus.processing ∨
        existing.status = QueueItemStatus.retrying then
      -- early return, before the broadcast line
      ({ status := "already_queued"
         position := s.get_position call_id
         item := existing.to_dict }, s, [])
    else
      addFresh bf call_id recording_file force now s
  | none => addFresh bf call_id recording_file force now s
where
  /-- The fresh-item path of `add`: construct the item, store it in `_items`,
  put it on the queue, broadcast, and report `queued` with the queue size. -/
  addFresh (bf : BroadcastFn) (call_id : String) (recording_file : Option String)
      (force : Bool) (now : Nat) (s : ProcessingQueue) :
      AddResult × ProcessingQueue × List (Except String Unit) :=
    let item : QueueItem :=
      { call_id := call_id, recording_file := recording_file, force := force,
        added_at := now }
    let s' : ProcessingQueue :=
      { s with items := dictSet s.items call_id item, queue := s.queue ++ [call_id] }
    ({ status := "queued", position := s'.queue.length, item := item.to_dict },
     s', ProcessingQueue.broadcast_status bf s')

/-- Models `ProcessingQueue.clear`: drain the queue, delete every Pending/Retrying
entry from `_items`, broadcast, and report the removed ids. -/
def ProcessingQueue.clear (bf : BroadcastFn) (s : ProcessingQueue) :
    ClearResult × ProcessingQueue × List (Except String Unit) :=
  let removed :=
    (s.items.filter (fun p =>
      p.2.status = QueueItemStatus.pending ∨ p.2.status = QueueItemStatus.retrying)).map
      (fun p => p.1)
  let s' : ProcessingQueue :=
    { s with queue := []
             items := s.items.filter (fun p =>
               ¬(p.2.status = QueueItemStatus.pending ∨
                 p.2.status = QueueItemStatus.retrying)) }
  ({ cleared := removed.length, call_ids := removed },
   s', ProcessingQueue.broadcast_status bf s')

/-- Models `ProcessingQueue.update_stage`: set the stage label only when `call_id`
matches the currently processing item (the mutation is visible both through
`_current` and through the shared object stored in `_items`). -/
def ProcessingQueue.update_stage (bf : BroadcastFn) (call_id stage : String)
    (s : ProcessingQueue) : ProcessingQueue × List (Except String Unit) :=
  match s.current with
  | some cur =>
    if cur.call_id = call_id then
      let cur' := { cur with stage := some stage }
      let s' : ProcessingQueue :=
        { s with current := some cur',
                 items := dictUpdateAlias s.items call_id cur' }
      (s', ProcessingQueue.broadcast_status bf s')
    else (s, [])
  | none => (s, [])

/-- First half of one `_worker` iteration: dequeue the next item; skip it
silently if a concurrent `clear` removed it from `_items`; otherwise wait
out `next_retry_at` if it lies in the future, mark the item Processing,
stamp `started_at`, bump `attempt`, set `_current` and broadcast. -/
def ProcessingQueue.worker_start (bf : BroadcastFn) (now : Nat)
    (s : ProcessingQueue) : ProcessingQueue × List (Except String Unit) :=
  match s.queue with
  | [] => (s, [])
  | cid :: rest =>
    match dictLookup s.items cid with
    | none => ({ s with queue := rest }, [])
    | some item =>
      let tstart : Nat :=
        match item.next_retry_at with
        | some r => max now r
        | none => now
      let item' := { item with status := QueueItemStatus.processing,
                               started_at := some tstart,
                               attempt := item.attempt + 1 }
      let s' : ProcessingQueue :=
        { s with queue := rest,
                 items := dictUpdateAlias s.items cid item',
                 current := some item' }
      (s', ProcessingQueue.broadcast_status bf s')

/-- Second half of one `_worker` iteration: apply the processing function's
outcome to the current item. On success mark Completed, append to the
bounded completed history, drop the item from `_items`. On an exception
record the message; if attempts remain mark Retrying with backoff
`2 ** attempt * 5` seconds and re-enqueue at the back, else mark Failed,
append to the bounded failed history and drop from `_items`. The `finally`
block resets `_current` and broadcasts. -/
def ProcessingQueue.worker_finish (bf : BroadcastFn) (res : Except String Unit)
    (now : Nat) (s : ProcessingQueue) :
    ProcessingQueue × List (Except String Unit) :=
  match s.current with
  | none => (s, [])
  | some item =>
    match res with
    | Except.ok _ =>
      let item' := { item with status := QueueItemStatus.completed,
                               completed_at := some now }
      let s' : ProcessingQueue :=
        { s with items := dictErase s.items item.call_id,
                 completed := trunc50 (s.completed ++ [item']),
                 current := none }
      (s', ProcessingQueue.broadcast_status bf s')
    | Except.error msg =>
      if item.attempt < item.max_retries then
        let backoff := 2 ^ item.attempt * 5
        let item' := { item with status := QueueItemStatus.retrying,
                                 error_message := some msg,
                                 next_retry_at := some (now + backoff) }
        let s' : ProcessingQueue :=
          { s with items := dictUpdateAlias s.items item.call_id item',
                   queue := s.queue ++ [item.call_id],
                   current := none }
        (s', ProcessingQueue.broadcast_status bf s')
      else
        let item' := { item with status := QueueItemStatus.failed,
                                 error_message := some msg,
                                 completed_at := some now }
        let s' : ProcessingQueue :=
          { s with items := dictErase s.items item.call_id,
                   failed := trunc50 (s.failed ++ [item']),
                   current := none }
        (s', ProcessingQueue.broadcast_status bf s')

/-- Models `ProcessingQueue.start` (the spawned worker task is modelled by the
`worker_start` / `worker_finish` steps). -/
def ProcessingQueue.start (s : ProcessingQueue) : ProcessingQueue :=
  { s with running := true }

/-- Models `ProcessingQueue.stop`. -/
def ProcessingQueue.stop (s : ProcessingQueue) : ProcessingQueue :=
  { s with running := false }

/-! ### The deduplication tracker (`processing_tracker.py`) -/

/-- The `ProcessingTracker` class: a set of call ids guarded by a `threading.Lock`;
each public method is one critical section, so the methods are modelled as
atomic state transformers. -/
structure ProcessingTracker where
  processing : List String
deriving DecidableEq

/-- Models `ProcessingTracker.__init__`. -/
def ProcessingTracker.init : ProcessingTracker := { processing := [] }

/-- Models `ProcessingTracker.try_acquire`: atomic check-and-insert. -/
def ProcessingTracker.try_acquire (t : ProcessingTracker) (call_id : String) :
    Bool × ProcessingTracker :=
  if call_id ∈ t.processing then (false, t)
  else (true, { processing := call_id :: t.processing })

/-- Models `ProcessingTracker.release`, which calls `set.discard`. -/
def ProcessingTracker.release (t : ProcessingTracker) (call_id : String) :
    ProcessingTracker :=
  { processing := t.processing.filter (fun c => c ≠ call_id) }

/-- Models `ProcessingTracker.is_processing`. -/
def ProcessingTracker.is_processing (t : ProcessingTracker) (call_id : String) : Bool :=
  decide (call_id ∈ t.processing)

/-- Models `ProcessingTracker.active_count`. -/
def ProcessingTracker.active_count (t : ProcessingTracker) : Nat :=
  t.processing.length

/-! ### Steps and reachability

One step of the system: a public queue operation invoked from the single
cooperative scheduler, or one of the two halves of a worker iteration.
`worker_start` carries the premise `s.current = none`, which encodes the
worker coroutine's own sequencing: the single worker only pulls the next
item after the previous iteration's `finally` block has reset `_current`. -/

inductive Step : ProcessingQueue → ProcessingQueue → Prop
  | add (bf : BroadcastFn) (call_id : String) (recording_file : Option String)
      (force : Bool) (now : Nat) (s : ProcessingQueue) :
      Step s (ProcessingQueue.add bf call_id recording_file force now s).2.1
  | clear (bf : BroadcastFn) (s : ProcessingQueue) :
      Step s (ProcessingQueue.clear bf s).2.1
  | update_stage (bf : BroadcastFn) (call_id stage : String) (s : ProcessingQueue) :
      Step s (ProcessingQueue.update_stage bf call_id stage s).1
  | worker_start (bf : BroadcastFn) (now : Nat) (s : ProcessingQueue)
      (h : s.current = none) :
      Step s (ProcessingQueue.worker_start bf now s).1
  | worker_finish (bf : BroadcastFn) (res : Except String Unit) (now : Nat)
      (s : ProcessingQueue) :
      Step s (ProcessingQueue.worker_finish bf res now s).1
  | start (s : ProcessingQueue) : Step s s.start
  | stop (s : ProcessingQueue) : Step s s.stop

/-- States reachable from the freshly constructed queue. -/
inductive Reachable : ProcessingQueue → Prop
  | init : Reachable ProcessingQueue.init
  | step {s s' : ProcessingQueue} : Reachable s → Step s s' → Reachable s'

/-! ### Dictionary lemmas -/

theorem dictLookup_mem {d : Dict} {k : String} {v : QueueItem}
    (h : dictLookup d k = some v) : (k, v) ∈ d := by
  induction d with
  | nil => simp [dictLookup] at h
  | cons p rest ih =>
    obtain ⟨k', v'⟩ := p
    simp only [dictLookup] at h
    by_cases hk : k' = k
    · rw [if_pos hk] at h
      obtain rfl : v' = v := by injection h
      subst hk
      exact List.mem_cons_self _ _
    · rw [if_neg hk] at h
      exact List.mem_cons_of_mem _ (ih h)

theorem dictLookup_eq_none_iff {d : Dict} {k : String} :
    dictLookup d k = none ↔ k ∉ d.map Prod.fst := by
  induction d with
  | nil => simp [dictLookup]
  | cons p rest ih =>
    obtain ⟨k', v'⟩ := p
    simp only [dictLookup, List.map_cons, List.mem_cons]
    by_cases hk : k' = k
    · subst hk; simp
    · rw [if_neg hk]
      have hk' : ¬(k = k') := fun h => hk h.symm
      simp [ih, not_or, hk']

theorem dictLookup_isSome_of_mem {d : Dict} {k : String} {v : QueueItem}
    (h : (k, v) ∈ d) : ∃ w, dictLookup d k = some w := by
  cases hl : dictLookup d k with
  | some w => exact ⟨w, rfl⟩
  | none =>
    rw [dictLookup_eq_none_iff] at hl
    exact absurd (List.mem_map_of_mem Prod.fst h) hl

theorem dictLookup_of_nodup_mem {d : Dict} {k : String} {v : QueueItem}
    (hn : (d.map Prod.fst).Nodup) (h : (k, v) ∈ d) : dictLookup d k = some v := by
  induction d with
  | nil => simp at h
  | cons p rest ih =>
    obtain ⟨k', v'⟩ := p
    simp only [List.map_cons, List.nodup_cons] at hn
    rcases List.mem_cons.1 h with heq | hmem
    · injection heq with h1 h2
      subst h1; subst h2
      simp [dictLookup]
    · simp only [dictLookup]
      by_cases hk : k' = k
      · subst hk
        exact absurd (List.mem_map_of_mem Prod.fst hmem) hn.1
      · rw [if_neg hk]
        exact ih hn.2 hmem

theorem dictSet_of_absent {d : Dict} {k : String} (v : QueueItem)
    (h : dictLookup d k = none) : dictSet d k v = d ++ [(k, v)] := by
  induction d with
  | nil => rfl
  | cons p rest ih =>
    obtain ⟨k', v'⟩ := p
    simp only [dictLookup] at h
    by_cases hk : k' = k
    · rw [if_pos hk] at h; exact absurd h (by simp)
    · rw [if_neg hk] at h
      simp [dictSet, if_neg hk, ih h]

theorem dictLookup_append_left {d e : Dict} {k : String} {v : QueueItem}
    (h : dictLookup d k = some v) : dictLookup (d ++ e) k = some v := by
  induction d with
  | nil => simp [dictLookup] at h
  | cons p rest ih =>
    obtain ⟨k', v'⟩ := p
    simp only [dictLookup, List.cons_append] at h ⊢
    by_cases hk : k' = k
    · rwa [if_pos hk] at h ⊢
    · rw [if_neg hk] at h ⊢; exact ih h

theorem dictLookup_append_right {d e : Dict} {k : String}
    (h : dictLookup d k = none) : dictLookup (d ++ e) k = dictLookup e k := by
  induction d with
  | nil => rfl
  | cons p rest ih =>
    obtain ⟨k', v'⟩ := p
    simp only [dictLookup, List.cons_append] at h ⊢
    by_cases hk : k' = k
    · rw [if_pos hk] at h; exact absurd h (by simp)
    · rw [if_neg hk] at h ⊢; exact ih h

theorem dictUpdateAlias_keys (d : Dict) (k : String) (v : QueueItem) :
    (dictUpdateAlias d k v).map Prod.fst = d.map Prod.fst := by
  induction d with
  | nil => rfl
  | cons p rest ih =>
    obtain ⟨k', v'⟩ := p
    simp only [dictUpdateAlias]
    by_cases hk : k' = k
    · rw [if_pos hk]; simp
    · rw [if_neg hk]; simp [ih]

theorem dictLookup_updateAlias_self {d : Dict} {k : String} {w : QueueItem}
    (v : QueueItem) (h : dictLookup d k = some w) :
    dictLookup (dictUpdateAlias d k v) k = some v := by
  induction d with
  | nil => simp [dictLookup] at h
  | cons p rest ih =>
    obtain ⟨k', v'⟩ := p
    simp only [dictLookup, dictUpdateAlias] at h ⊢
    by_cases hk : k' = k
    · rw [if_pos hk]; simp [dictLookup, if_pos hk]
    · rw [if_neg hk] at h ⊢; simp [dictLookup, if_neg hk]; exact ih h

theorem dictLookup_updateAlias_ne {d : Dict} {k k' : String} (v : QueueItem)
    (h : k' ≠ k) : dictLookup (dictUpdateAlias d k v) k' = dictLookup d k' := by
  induction d with
  | nil => rfl
  | cons p rest ih =>
    obtain ⟨k₀, v₀⟩ := p
    simp only [dictUpdateAlias]
    by_cases hk : k₀ = k
    · rw [if_pos hk]
      have hne : ¬(k₀ = k') := fun hh => h (by rw [← hh, hk])
      simp only [dictLookup]
      rw [if_neg hne, if_neg hne]
    · rw [if_neg hk]
      simp only [dictLookup]
      by_cases hk' : k₀ = k'
      · rw [if_pos hk', if_pos hk']
      · rw [if_neg hk', if_neg hk']; exact ih

theorem mem_dictUpdateAlias {d : Dict} {k : String} {v : QueueItem}
    {p : String × QueueItem} (hn : (d.map Prod.fst).Nodup)
    (h : p ∈ dictUpdateAlias d k v) :
    (p.1 = k ∧ p.2 = v) ∨ (p ∈ d ∧ p.1 ≠ k) := by
  induction d with
  | nil => simp [dictUpdateAlias] at h
  | cons q rest ih =>
    obtain ⟨k₀, v₀⟩ := q
    simp only [List.map_cons, List.nodup_cons] at hn
    simp only [dictUpdateAlias] at h
    by_cases hk : k₀ = k
    · rw [if_pos hk] at h
      rcases List.mem_cons.1 h with heq | hmem
      · subst heq; exact Or.inl ⟨hk, rfl⟩
      · refine Or.inr ⟨List.mem_cons_of_mem _ hmem, ?_⟩
        intro hpk
        subst hk hpk
        exact hn.1 (List.mem_map_of_mem Prod.fst hmem)
    · rw [if_neg hk] at h
      rcases List.mem_cons.1 h with heq | hmem
      · subst heq; exact Or.inr ⟨List.mem_cons_self _ _, hk⟩
      · rcases ih hn.2 hmem with h1 | h2
        · exact Or.inl h1
        · exact Or.inr ⟨List.mem_cons_of_mem _ h2.1, h2.2⟩

theorem mem_dictErase {d : Dict} {k : String} {p : String × QueueItem} :
    p ∈ dictErase d k ↔ p ∈ d ∧ p.1 ≠ k := by
  simp [dictErase, List.mem_filter]

theorem dictErase_sublist (d : Dict) (k : String) : List.Sublist (dictErase d k) d :=
  List.filter_sublist d

theorem dictLookup_erase_ne {d : Dict} {k k' : String} (h : k' ≠ k) :
    dictLookup (dictErase d k) k' = dictLookup d k' := by
  induction d with
  | nil => rfl
  | cons p rest ih =>
    obtain ⟨k₀, v₀⟩ := p
    by_cases hk : k₀ = k
    · have hstep : dictErase ((k₀, v₀) :: rest) k = dictErase rest k := by
        simp [dictErase, List.filter_cons, hk]
      rw [hstep, ih]
      simp only [dictLookup]
      rw [if_neg (fun hh : k₀ = k' => h (by rw [← hh, hk]))]
    · have hstep : dictErase ((k₀, v₀) :: rest) k = (k₀, v₀) :: dictErase rest k := by
        simp [dictErase, List.filter_cons, hk]
      rw [hstep]
      simp only [dictLookup]
      by_cases hk' : k₀ = k'
      · rw [if_pos hk', if_pos hk']
      · rw [if_neg hk', if_neg hk']; exact ih

theorem dictLookup_filter {d : Dict} {k : String} {v : QueueItem}
    {f : String × QueueItem → Bool} (hn : (d.map Prod.fst).Nodup)
    (h : dictLookup d k = some v) (hf : f (k, v) = true) :
    dictLookup (d.filter f) k = some v := by
  induction d with
  | nil => simp [dictLookup] at h
  | cons p rest ih =>
    obtain ⟨k₀, v₀⟩ := p
    simp only [List.map_cons, List.nodup_cons] at hn
    simp only [dictLookup] at h
    by_cases hk : k₀ = k
    · rw [if_pos hk] at h
      obtain rfl : v₀ = v := by injection h
      subst hk
      simp only [List.filter, hf]
      simp [dictLookup]
    · rw [if_neg hk] at h
      simp only [List.filter]
      cases hf0 : f (k₀, v₀) with
      | true =>
        simp only [dictLookup]
        rw [if_neg hk]
        exact ih hn.2 h
      | false => exact ih hn.2 h

theorem dictLookup_filter_eq_none {d : Dict} {k : String}
    {f : String × QueueItem → Bool} (h : dictLookup d k = none) :
    dictLookup (d.filter f) k = none := by
  rw [dictLookup_eq_none_iff] at h ⊢
  intro hmem
  rcases List.mem_map.1 hmem with ⟨p, hp, hfst⟩
  exact h (List.mem_map.2 ⟨p, (List.mem_filter.1 hp).1, hfst⟩)

/-! ### Position lemmas -/

theorem getPositionAux_of_none {d : Dict} {k : String} (h : dictLookup d k = none)
    (acc : Nat) : getPositionAux d k acc = 0 := by
  induction d generalizing acc with
  | nil => rfl
  | cons p rest ih =>
    obtain ⟨k₀, v₀⟩ := p
    simp only [dictLookup] at h
    by_cases hk : k₀ = k
    · rw [if_pos hk] at h; exact absurd h (by simp)
    · rw [if_neg hk] at h
      simp only [getPositionAux]
      by_cases hact : v₀.status = QueueItemStatus.pending ∨
          v₀.status = QueueItemStatus.retrying
      · rw [if_pos hact, if_neg hk]
        exact ih h _
      · rw [if_neg hact]
        exact ih h _

theorem getPositionAux_of_inactive {d : Dict} {k : String} {it : QueueItem}
    (hn : (d.map Prod.fst).Nodup) (h : dictLookup d k = some it)
    (hi : ¬(it.status = QueueItemStatus.pending ∨ it.status = QueueItemStatus.retrying))
    (acc : Nat) : getPositionAux d k acc = 0 := by
  induction d generalizing acc with
  | nil => simp [dictLookup] at h
  | cons p rest ih =>
    obtain ⟨k₀, v₀⟩ := p
    simp only [List.map_cons, List.nodup_cons] at hn
    simp only [dictLookup] at h
    by_cases hk : k₀ = k
    · rw [if_pos hk] at h
      obtain rfl : v₀ = it := by injection h
      simp only [getPositionAux]
      rw [if_neg hi]
      have hnone : dictLookup rest k = none := by
        rw [dictLookup_eq_none_iff]
        intro hmem
        exact hn.1 (hk ▸ hmem)
      exact getPositionAux_of_none hnone _
    · rw [if_neg hk] at h
      simp only [getPositionAux]
      by_cases hact : v₀.status = QueueItemStatus.pending ∨
          v₀.status = QueueItemStatus.retrying
      · rw [if_pos hact, if_neg hk]
        exact ih hn.2 h _
      · rw [if_neg hact]
        exact ih hn.2 h _

theorem getPositionAux_pos {d : Dict} {k : String}
    (hn : (d.map Prod.fst).Nodup) {acc : Nat} (h : 0 < getPositionAux d k acc) :
    ∃ it, dictLookup d k = some it ∧
      (it.status = QueueItemStatus.pending ∨ it.status = QueueItemStatus.retrying) := by
  rcases hl : dictLookup d k with _ | it
  · rw [getPositionAux_of_none hl] at h; omega
  · refine ⟨it, rfl, ?_⟩
    by_contra hi
    rw [getPositionAux_of_inactive hn hl hi] at h
    omega

/-! ### History bound lemmas -/

theorem lastN_length_le (n : Nat) (xs : List α) : (lastN n xs).length ≤ n := by
  simp only [lastN, List.length_drop]
  omega

theorem trunc50_length_le (xs : List QueueItem) : (trunc50 xs).length ≤ 50 := by
  unfold trunc50
  by_cases h : xs.length > 50
  · rw [if_pos h]; exact lastN_length_le _ _
  · rw [if_neg h]; omega

/-! ### The state invariant

`WF` collects the structural facts that hold in every reachable queue
state: the `_items` dict binds each id to an item carrying that id, with no
duplicate keys; `_items` holds no terminal (Completed/Failed) item; the
queue of ids is duplicate-free and every queued id is bound in `_items` to
a Pending or Retrying item; `_current`, when set, is bound in `_items`,
has status Processing and is not queued; every Processing item in `_items`
is the current one; and both histories are bounded by 50. -/

structure WF (s : ProcessingQueue) : Prop where
  keys_eq : ∀ p ∈ s.items, p.1 = p.2.call_id
  keys_nodup : (s.items.map Prod.fst).Nodup
  no_terminal : ∀ p ∈ s.items,
    p.2.status ≠ QueueItemStatus.completed ∧ p.2.status ≠ QueueItemStatus.failed
  queue_nodup : s.queue.Nodup
  queue_active : ∀ cid ∈ s.queue, ∃ it, dictLookup s.items cid = some it ∧
    (it.status = QueueItemStatus.pending ∨ it.status = QueueItemStatus.retrying)
  current_mem : ∀ it, s.current = some it →
    dictLookup s.items it.call_id = some it ∧ it.status = QueueItemStatus.processing
  proc_current : ∀ p ∈ s.items, p.2.status = QueueItemStatus.processing →
    s.current = some p.2
  current_unqueued : ∀ it, s.current = some it → it.call_id ∉ s.queue
  completed_le : s.completed.length ≤ 50
  failed_le : s.failed.length ≤ 50

theorem wf_init : WF ProcessingQueue.init := by
  constructor <;> simp [ProcessingQueue.init]

theorem wf_addFresh {s : ProcessingQueue} (bf : BroadcastFn) (call_id : String)
    (recording_file : Option String) (force : Bool) (now : Nat)
    (hwf : WF s) (habs : dictLookup s.items call_id = none) :
    WF (ProcessingQueue.add.addFresh bf call_id recording_file force now s).2.1 := by
  have hnotin : call_id ∉ s.items.map Prod.fst := dictLookup_eq_none_iff.1 habs
  have hnq : call_id ∉ s.queue := by
    intro hq
    obtain ⟨it, hit, _⟩ := hwf.queue_active call_id hq
    rw [habs] at hit
    exact absurd hit (by simp)
  show WF { s with
    items := dictSet s.items call_id
      { call_id := call_id, recording_file := recording_file, force := force,
        added_at := now }
    queue := s.queue ++ [call_id] }
  rw [dictSet_of_absent _ habs]
  constructor
  · intro p hp
    rcases List.mem_append.1 hp with hp | hp
    · exact hwf.keys_eq p hp
    · simp only [List.mem_singleton] at hp
      subst hp
      rfl
  · rw [List.map_append]
    refine hwf.keys_nodup.append (by simp) ?_
    intro a ha hb
    simp only [List.map_cons, List.map_nil, List.mem_singleton] at hb
    subst hb
    exact hnotin ha
  · intro p hp
    rcases List.mem_append.1 hp with hp | hp
    · exact hwf.no_terminal p hp
    · simp only [List.mem_singleton] at hp
      subst hp
      simp
  · refine hwf.queue_nodup.append (by simp) ?_
    intro a ha hb
    simp only [List.mem_singleton] at hb
    subst hb
    exact hnq ha
  · intro cid hcid
    rcases List.mem_append.1 hcid with hcid | hcid
    · obtain ⟨it, hit, hact⟩ := hwf.queue_active cid hcid
      exact ⟨it, dictLookup_append_left hit, hact⟩
    · simp only [List.mem_singleton] at hcid
      subst hcid
      refine ⟨{ call_id := cid, recording_file := recording_file, force := force,
                added_at := now }, ?_, Or.inl rfl⟩
      rw [dictLookup_append_right habs]
      simp [dictLookup]
  · intro it hc
    obtain ⟨hl, hp⟩ := hwf.current_mem it hc
    exact ⟨dictLookup_append_left hl, hp⟩
  · intro p hp hproc
    rcases List.mem_append.1 hp with hp | hp
    · exact hwf.proc_current p hp hproc
    · simp only [List.mem_singleton] at hp
      subst hp
      simp at hproc
  · intro it hc
    obtain ⟨hl, _⟩ := hwf.current_mem it hc
    intro hmem
    rcases List.mem_append.1 hmem with hmem | hmem
    · exact hwf.current_unqueued it hc hmem
    · simp only [List.mem_singleton] at hmem
      rw [hmem] at hl
      rw [habs] at hl
      exact absurd hl (by simp)
  · exact hwf.completed_le
  · exact hwf.failed_le

theorem wf_add {s : ProcessingQueue} (bf : BroadcastFn) (call_id : String)
    (recording_file : Option String) (force : Bool) (now : Nat) (hwf : WF s) :
    WF (ProcessingQueue.add bf call_id recording_file force now s).2.1 := by
  unfold ProcessingQueue.add
  split
  next existing heq =>
    split
    next => exact hwf
    next hact =>
      exfalso
      obtain ⟨hc, hf⟩ := hwf.no_terminal _ (dictLookup_mem heq)
      cases hst : existing.status <;> simp [hst] at hact hc hf
  next heq => exact wf_addFresh bf call_id recording_file force now hwf heq

theorem wf_clear {s : ProcessingQueue} (bf : BroadcastFn) (hwf : WF s) :
    WF (ProcessingQueue.clear bf s).2.1 := by
  show WF { s with queue := ([] : List String)
                   items := s.items.filter (fun p =>
                     ¬(p.2.status = QueueItemStatus.pending ∨
                       p.2.status = QueueItemStatus.retrying)) }
  constructor
  · intro p hp
    exact hwf.keys_eq p (List.mem_filter.1 hp).1
  · exact List.Nodup.sublist (List.Sublist.map _ (List.filter_sublist _)) hwf.keys_nodup
  · intro p hp
    exact hwf.no_terminal p (List.mem_filter.1 hp).1
  · exact List.nodup_nil
  · intro cid hcid
    simp at hcid
  · intro it hc
    obtain ⟨hl, hp⟩ := hwf.current_mem it hc
    refine ⟨dictLookup_filter hwf.keys_nodup hl ?_, hp⟩
    simp [hp]
  · intro p hp hproc
    exact hwf.proc_current p (List.mem_filter.1 hp).1 hproc
  · intro it hc
    simp
  · exact hwf.completed_le
  · exact hwf.failed_le

theorem wf_update_stage {s : ProcessingQueue} (bf : BroadcastFn)
    (call_id stage : String) (hwf : WF s) :
    WF (ProcessingQueue.update_stage bf call_id stage s).1 := by
  unfold ProcessingQueue.update_stage
  split
  next cur hcur =>
    split
    next hid =>
      obtain ⟨hl, hp⟩ := hwf.current_mem cur hcur
      have hlid : dictLookup s.items call_id = some cur := by rwa [hid] at hl
      have hnq : cur.call_id ∉ s.queue := hwf.current_unqueued cur hcur
      constructor
      · intro p hp'
        rcases mem_dictUpdateAlias hwf.keys_nodup hp' with ⟨h1, h2⟩ | ⟨h1, _⟩
        · rw [h1, h2]
          exact hid.symm
        · exact hwf.keys_eq p h1
      · rw [dictUpdateAlias_keys]
        exact hwf.keys_nodup
      · intro p hp'
        rcases mem_dictUpdateAlias hwf.keys_nodup hp' with ⟨_, h2⟩ | ⟨h1, _⟩
        · rw [h2]
          simp [hp]
        · exact hwf.no_terminal p h1
      · exact hwf.queue_nodup
      · intro cid hcid
        have hne : cid ≠ call_id := by
          intro hh
          rw [hh, ← hid] at hcid
          exact hnq hcid
        rw [dictLookup_updateAlias_ne _ hne]
        exact hwf.queue_active cid hcid
      · intro it hc
        obtain rfl : { cur with stage := some stage } = it := by injection hc
        exact ⟨by rw [show QueueItem.call_id { cur with stage := some stage } = call_id
                        from hid]
                  exact dictLookup_updateAlias_self _ hlid, hp⟩
      · intro p hp' hproc
        rcases mem_dictUpdateAlias hwf.keys_nodup hp' with ⟨_, h2⟩ | ⟨h1, h2⟩
        · rw [h2]
        · exfalso
          have := hwf.proc_current p h1 hproc
          rw [hcur] at this
          have hpc : p.2 = cur := by injection this with hh; exact hh.symm
          apply h2
          rw [hwf.keys_eq p h1, hpc, hid]
      · intro it hc hmem
        obtain rfl : { cur with stage := some stage } = it := by injection hc
        exact hnq hmem
      · exact hwf.completed_le
      · exact hwf.failed_le
    next => exact hwf
  next => exact hwf

theorem wf_worker_start {s : ProcessingQueue} (bf : BroadcastFn) (now : Nat)
    (hwf : WF s) (hcur : s.current = none) :
    WF (ProcessingQueue.worker_start bf now s).1 := by
  unfold ProcessingQueue.worker_start
  split
  next => exact hwf
  next cid rest hq =>
    have hqn : (cid :: rest).Nodup := hq ▸ hwf.queue_nodup
    have hcidrest : cid ∉ rest := (List.nodup_cons.1 hqn).1
    split
    next hl =>
      exact { keys_eq := hwf.keys_eq
              keys_nodup := hwf.keys_nodup
              no_terminal := hwf.no_terminal
              queue_nodup := (List.nodup_cons.1 hqn).2
              queue_active := fun c hc =>
                hwf.queue_active c (hq ▸ List.mem_cons_of_mem _ hc)
              current_mem := hwf.current_mem
              proc_current := hwf.proc_current
              current_unqueued := fun it hc => absurd (hcur ▸ hc) (by simp)
              completed_le := hwf.completed_le
              failed_le := hwf.failed_le }
    next item hl =>
      have hcid : cid = item.call_id := hwf.keys_eq _ (dictLookup_mem hl)
      constructor
      · intro p hp'
        rcases mem_dictUpdateAlias hwf.keys_nodup hp' with ⟨h1, h2⟩ | ⟨h1, _⟩
        · rw [h1, h2, hcid]
        · exact hwf.keys_eq p h1
      · rw [dictUpdateAlias_keys]
        exact hwf.keys_nodup
      · intro p hp'
        rcases mem_dictUpdateAlias hwf.keys_nodup hp' with ⟨_, h2⟩ | ⟨h1, _⟩
        · rw [h2]
          simp
        · exact hwf.no_terminal p h1
      · exact (List.nodup_cons.1 hqn).2
      · intro c hc
        have hne : c ≠ cid := fun hh => hcidrest (hh ▸ hc)
        rw [dictLookup_updateAlias_ne _ hne]
        exact hwf.queue_active c (hq ▸ List.mem_cons_of_mem _ hc)
      · intro it hc
        refine ⟨?_, by injection hc with hh; rw [← hh]⟩
        have : dictLookup (dictUpdateAlias s.items cid
            { item with status := QueueItemStatus.processing,
                        started_at := some (match item.next_retry_at with
                          | some r => max now r
                          | none => now),
                        attempt := item.attempt + 1 }) cid = some
            { item with status := QueueItemStatus.processing,
                        started_at := some (match item.next_retry_at with
                          | some r => max now r
                          | none => now),
                        attempt := item.attempt + 1 } :=
          dictLookup_updateAlias_self _ hl
        injection hc with hh
        rw [← hh]
        simpa [← hcid] using this
      · intro p hp' hproc
        rcases mem_dictUpdateAlias hwf.keys_nodup hp' with ⟨_, h2⟩ | ⟨h1, _⟩
        · rw [h2]
        · exact absurd (hcur ▸ hwf.proc_current p h1 hproc) (by simp)
      · intro it hc hmem
        injection hc with hh
        rw [← hh] at hmem
        exact hcidrest (show cid ∈ rest by simpa [← hcid] using hmem)
      · exact hwf.completed_le
      · exact hwf.failed_le

theorem wf_worker_finish {s : ProcessingQueue} (bf : BroadcastFn)
    (res : Except String Unit) (now : Nat) (hwf : WF s) :
    WF (ProcessingQueue.worker_finish bf res now s).1 := by
  unfold ProcessingQueue.worker_finish
  split
  next => exact hwf
  next item hcur =>
    obtain ⟨hl, hp⟩ := hwf.current_mem item hcur
    have hnq : item.call_id ∉ s.queue := hwf.current_unqueued item hcur
    have hproc_only : ∀ p ∈ s.items, p.2.status = QueueItemStatus.processing →
        p.1 = item.call_id := by
      intro p hp' hproc
      have := hwf.proc_current p hp' hproc
      rw [hcur] at this
      have hpc : p.2 = item := by injection this with hh; exact hh.symm
      rw [hwf.keys_eq p hp', hpc]
    split
    next =>
      constructor
      · intro p hp'
        exact hwf.keys_eq p (mem_dictErase.1 hp').1
      · exact List.Nodup.sublist (List.Sublist.map _ (dictErase_sublist _ _))
          hwf.keys_nodup
      · intro p hp'
        exact hwf.no_terminal p (mem_dictErase.1 hp').1
      · exact hwf.queue_nodup
      · intro c hc
        have hne : c ≠ item.call_id := fun hh => hnq (hh ▸ hc)
        rw [dictLookup_erase_ne hne]
        exact hwf.queue_active c hc
      · intro it hc
        exact absurd hc (by simp)
      · intro p hp' hproc
        exfalso
        obtain ⟨h1, h2⟩ := mem_dictErase.1 hp'
        exact h2 (hproc_only p h1 hproc)
      · intro it hc
        exact absurd hc (by simp)
      · exact trunc50_length_le _
      · exact hwf.failed_le
    next msg =>
      split
      next =>
        constructor
        · intro p hp'
          rcases mem_dictUpdateAlias hwf.keys_nodup hp' with ⟨h1, h2⟩ | ⟨h1, _⟩
          · rw [h1, h2]
          · exact hwf.keys_eq p h1
        · rw [dictUpdateAlias_keys]
          exact hwf.keys_nodup
        · intro p hp'
          rcases mem_dictUpdateAlias hwf.keys_nodup hp' with ⟨_, h2⟩ | ⟨h1, _⟩
          · rw [h2]
            simp
          · exact hwf.no_terminal p h1
        · refine hwf.queue_nodup.append (by simp) ?_
          intro a ha hb
          simp only [List.mem_singleton] at hb
          subst hb
          exact hnq ha
        · intro c hc
          rcases List.mem_append.1 hc with hc | hc
          · have hne : c ≠ item.call_id := fun hh => hnq (hh ▸ hc)
            rw [dictLookup_updateAlias_ne _ hne]
            exact hwf.queue_active c hc
          · simp only [List.mem_singleton] at hc
            subst hc
            exact ⟨_, dictLookup_updateAlias_self _ hl, Or.inr rfl⟩
        · intro it hc
          exact absurd hc (by simp)
        · intro p hp' hproc
          exfalso
          rcases mem_dictUpdateAlias hwf.keys_nodup hp' with ⟨_, h2⟩ | ⟨h1, h2⟩
          · rw [h2] at hproc
            simp at hproc
          · exact h2 (hproc_only p h1 hproc)
        · intro it hc
          exact absurd hc (by simp)
        · exact hwf.completed_le
        · exact hwf.failed_le
      next =>
        constructor
        · intro p hp'
          exact hwf.keys_eq p (mem_dictErase.1 hp').1
        · exact List.Nodup.sublist (List.Sublist.map _ (dictErase_sublist _ _))
            hwf.keys_nodup
        · intro p hp'
          exact hwf.no_terminal p (mem_dictErase.1 hp').1
        · exact hwf.queue_nodup
        · intro c hc
          have hne : c ≠ item.call_id := fun hh => hnq (hh ▸ hc)
          rw [dictLookup_erase_ne hne]
          exact hwf.queue_active c hc
        · intro it hc
          exact absurd hc (by simp)
        · intro p hp' hproc
          exfalso
          obtain ⟨h1, h2⟩ := mem_dictErase.1 hp'
          exact h2 (hproc_only p h1 hproc)
        · intro it hc
          exact absurd hc (by simp)
        · exact hwf.completed_le
        · exact trunc50_length_le _

theorem wf_step {s s' : ProcessingQueue} (hwf : WF s) (h : Step s s') : WF s' := by
  cases h with
  | add bf call_id recording_file force now s =>
    exact wf_add bf call_id recording_file force now hwf
  | clear bf s => exact wf_clear bf hwf
  | update_stage bf call_id stage s => exact wf_update_stage bf call_id stage hwf
  | worker_start bf now s hc => exact wf_worker_start bf now hwf hc
  | worker_finish bf res now s => exact wf_worker_finish bf res now hwf
  | start s =>
    exact ⟨hwf.keys_eq, hwf.keys_nodup, hwf.no_terminal, hwf.queue_nodup,
      hwf.queue_active, hwf.current_mem, hwf.proc_current, hwf.current_unqueued,
      hwf.completed_le, hwf.failed_le⟩
  | stop s =>
    exact ⟨hwf.keys_eq, hwf.keys_nodup, hwf.no_terminal, hwf.queue_nodup,
      hwf.queue_active, hwf.current_mem, hwf.proc_current, hwf.current_unqueued,
      hwf.completed_le, hwf.failed_le⟩

theorem reachable_wf {s : ProcessingQueue} (h : Reachable s) : WF s := by
  induction h with
  | init => exact wf_init
  | step _ hstep ih => exact wf_step ih hstep

/-! ### Claim C1 -/

/-- C1: for every call identifier, two `add` calls in quick succession while
the first item is still active create exactly one queue item: the first call
returns status `queued` (having appended exactly one new binding and one new
queue slot), the second returns `already_queued` with that item's current
queue position and that item's dictionary, and changes nothing. -/
theorem C1_add_twice_one_item (bf bf' : BroadcastFn) (call_id : String)
    (rec rec' : Option String) (force force' : Bool) (now now' : Nat)
    (s : ProcessingQueue) (habs : dictLookup s.items call_id = none) :
    ∃ item1 : QueueItem,
      (ProcessingQueue.add bf call_id rec force now s).1.status = "queued" ∧
      (ProcessingQueue.add bf call_id rec force now s).2.1.items =
        s.items ++ [(call_id, item1)] ∧
      (ProcessingQueue.add bf call_id rec force now s).2.1.queue =
        s.queue ++ [call_id] ∧
      item1.status = QueueItemStatus.pending ∧ item1.call_id = call_id ∧
      (ProcessingQueue.add bf' call_id rec' force' now'
        (ProcessingQueue.add bf call_id rec force now s).2.1).1.status =
        "already_queued" ∧
      (ProcessingQueue.add bf' call_id rec' force' now'
        (ProcessingQueue.add bf call_id rec force now s).2.1).2.1 =
        (ProcessingQueue.add bf call_id rec force now s).2.1 ∧
      (ProcessingQueue.add bf' call_id rec' force' now'
        (ProcessingQueue.add bf call_id rec force now s).2.1).1.position =
        (ProcessingQueue.add bf call_id rec force now s).2.1.get_position call_id ∧
      (ProcessingQueue.add bf' call_id rec' force' now'
        (ProcessingQueue.add bf call_id rec force now s).2.1).1.item =
        item1.to_dict := by
  refine ⟨{ call_id := call_id, recording_file := rec, force := force,
            added_at := now }, ?_⟩
  have hset := dictSet_of_absent
    ({ call_id := call_id, recording_file := rec, force := force,
       added_at := now } : QueueItem) habs
  have h2 : dictLookup (dictSet s.items call_id
      { call_id := call_id, recording_file := rec, force := force,
        added_at := now }) call_id = some
      { call_id := call_id, recording_file := rec, force := force,
        added_at := now } := by
    rw [hset, dictLookup_append_right habs]
    simp [dictLookup]
  simp only [ProcessingQueue.add, ProcessingQueue.add.addFresh, habs, h2]
  simp [hset]

def c1_s1 : ProcessingQueue :=
  (ProcessingQueue.add none "call-A" (some "rec1.wav") false 0
    ProcessingQueue.init).2.1

theorem C1_add_twice_one_item_witness :
    dictLookup ProcessingQueue.init.items "call-A" = none ∧
    ((ProcessingQueue.add none "call-A" (some "rec1.wav") false 0
        ProcessingQueue.init).1.status = "queued" ∧
      (ProcessingQueue.add none "call-A" (some "rec1.wav") false 1 c1_s1).1.status =
        "already_queued" ∧
      (ProcessingQueue.add none "call-A" (some "rec1.wav") false 1 c1_s1).2.1 =
        c1_s1 ∧
      (ProcessingQueue.add none "call-A" (some "rec1.wav") false 1 c1_s1).1.position =
        1) := by
  have e : c1_s1 = (ProcessingQueue.add none "call-A" (some "rec1.wav") false 0
      ProcessingQueue.init).2.1 := rfl
  obtain ⟨item1, h1, _, _, _, _, h6, h7, h8, _⟩ :=
    C1_add_twice_one_item none none "call-A" (some "rec1.wav")
      (some "rec1.wav") false false 0 1 ProcessingQueue.init (by decide)
  refine ⟨by decide, h1, ?_, ?_, ?_⟩
  · rw [e]; exact h6
  · rw [e]; exact h7
  · rw [e, h8]; decide

/-! ### Claim C2 -/

/-- C2: `try_acquire(k)` twice in a row returns `true` then `false`; after
`release(k)` a further `try_acquire(k)` returns `true` again; and in general
`try_acquire` returns `true` exactly when the key was not yet held, in which
case the caller is now the holder. -/
theorem C2_try_acquire_release (t : ProcessingTracker) (k : String)
    (h : k ∉ t.processing) :
    (t.try_acquire k).1 = true ∧
    ((t.try_acquire k).2.try_acquire k).1 = false ∧
    ((((t.try_acquire k).2.try_acquire k).2.release k).try_acquire k).1 = true ∧
    k ∈ (t.try_acquire k).2.processing ∧
    (∀ t' : ProcessingTracker, ∀ k' : String,
      ((t'.try_acquire k').1 = true ↔
        k' ∉ t'.processing ∧ k' ∈ (t'.try_acquire k').2.processing)) := by
  refine ⟨?_, ?_, ?_, ?_, ?_⟩
  · simp [ProcessingTracker.try_acquire, h]
  · simp [ProcessingTracker.try_acquire, h]
  · simp [ProcessingTracker.try_acquire, ProcessingTracker.release, h,
      List.mem_filter]
  · simp [ProcessingTracker.try_acquire, h]
  · intro t' k'
    by_cases hk : k' ∈ t'.processing
    · simp [ProcessingTracker.try_acquire, hk]
    · simp [ProcessingTracker.try_acquire, hk]

theorem C2_try_acquire_release_witness :
    "call-1" ∉ ProcessingTracker.init.processing ∧
    ((ProcessingTracker.init.try_acquire "call-1").1 = true ∧
      ((ProcessingTracker.init.try_acquire "call-1").2.try_acquire "call-1").1 =
        false ∧
      ((((ProcessingTracker.init.try_acquire "call-1").2.try_acquire
          "call-1").2.release "call-1").try_acquire "call-1").1 = true ∧
      "call-1" ∈ (ProcessingTracker.init.try_acquire "call-1").2.processing ∧
      (∀ t' : ProcessingTracker, ∀ k' : String,
        ((t'.try_acquire k').1 = true ↔
          k' ∉ t'.processing ∧ k' ∈ (t'.try_acquire k').2.processing))) :=
  ⟨by decide, C2_try_acquire_release ProcessingTracker.init "call-1" (by decide)⟩

/-! ### Claim C3 -/

/-- C3: in every reachable queue state at most one item has status
Processing; any Processing item in the index is exactly the item referenced
by the worker's `_current` pointer, and conversely the current item, when
set, is a Processing item of the index. -/
theorem C3_at_most_one_processing {s : ProcessingQueue} (hreach : Reachable s) :
    (s.items.filter (fun p => p.2.status = QueueItemStatus.processing)).length ≤ 1 ∧
    (∀ p ∈ s.items, p.2.status = QueueItemStatus.processing →
      s.current = some p.2) ∧
    (∀ it, s.current = some it → it.status = QueueItemStatus.processing ∧
      dictLookup s.items it.call_id = some it) := by
  have hwf := reachable_wf hreach
  refine ⟨?_, hwf.proc_current, fun it hc => ⟨(hwf.current_mem it hc).2,
    (hwf.current_mem it hc).1⟩⟩
  rcases hf : s.items.filter (fun p => p.2.status = QueueItemStatus.processing)
    with _ | ⟨p, rest⟩
  · rw [hf]; simp
  · rcases rest with _ | ⟨q, rest2⟩
    · rw [hf]; simp
    · exfalso
      have hsub : List.Sublist (p :: q :: rest2) s.items :=
        hf ▸ List.filter_sublist _
      have hpmem : p ∈ s.items := hsub.subset (by simp)
      have hqmem : q ∈ s.items := hsub.subset (by simp)
      have hpf : p ∈ s.items.filter
          (fun p => p.2.status = QueueItemStatus.processing) := by
        rw [hf]; simp
      have hqf : q ∈ s.items.filter
          (fun p => p.2.status = QueueItemStatus.processing) := by
        rw [hf]; simp
      have hpproc : p.2.status = QueueItemStatus.processing := by
        have := List.of_mem_filter hpf
        simpa using this
      have hqproc : q.2.status = QueueItemStatus.processing := by
        have := List.of_mem_filter hqf
        simpa using this
      have h1 := hwf.proc_current p hpmem hpproc
      have h2 := hwf.proc_current q hqmem hqproc
      rw [h1] at h2
      have hval : p.2 = q.2 := by injection h2
      have hkey : p.1 = q.1 := by
        rw [hwf.keys_eq p hpmem, hwf.keys_eq q hqmem, hval]
      have hnd : ((p :: q :: rest2).map Prod.fst).Nodup :=
        List.Nodup.sublist (hsub.map _) hwf.keys_nodup
      simp only [List.map_cons, List.nodup_cons, List.mem_cons] at hnd
      exact hnd.1 (Or.inl hkey)

def c3_s : ProcessingQueue :=
  (ProcessingQueue.worker_start none 0
    (ProcessingQueue.add none "call-P" none false 0 ProcessingQueue.init).2.1).1

theorem C3_at_most_one_processing_witness :
    (c3_s.items.filter
      (fun p => p.2.status = QueueItemStatus.processing)).length ≤ 1 ∧
    (∀ p ∈ c3_s.items, p.2.status = QueueItemStatus.processing →
      c3_s.current = some p.2) ∧
    (∀ it, c3_s.current = some it → it.status = QueueItemStatus.processing ∧
      dictLookup c3_s.items it.call_id = some it) := by
  have h1 : Reachable (ProcessingQueue.add none "call-P" none false 0
      ProcessingQueue.init).2.1 :=
    Reachable.step Reachable.init
      (Step.add none "call-P" none false 0 ProcessingQueue.init)
  have h2 : Reachable c3_s :=
    Reachable.step h1 (Step.worker_start none 0 _ (by decide))
  exact C3_at_most_one_processing h2

/-! ### Claim C10 -/

/-- C10: calling `add` for a call id whose existing item is Processing
returns `already_queued` with position 0, because `_get_position` counts
only Pending/Retrying entries; conversely a strictly positive position is
only ever reported for an id bound to a Pending or Retrying item. -/
theorem C10_position_zero_for_processing {s : ProcessingQueue}
    (hreach : Reachable s) :
    (∀ (bf : BroadcastFn) (k : String) (it : QueueItem) (rec : Option String)
      (force : Bool) (now : Nat),
      dictLookup s.items k = some it →
      it.status = QueueItemStatus.processing →
      (ProcessingQueue.add bf k rec force now s).1.status = "already_queued" ∧
      (ProcessingQueue.add bf k rec force now s).1.position = 0) ∧
    (∀ k : String, 0 < s.get_position k →
      ∃ it, dictLookup s.items k = some it ∧
        (it.status = QueueItemStatus.pending ∨
         it.status = QueueItemStatus.retrying)) := by
  have hwf := reachable_wf hreach
  constructor
  · intro bf k it rec force now hl hproc
    have hpos0 : getPositionAux s.items k 0 = 0 :=
      getPositionAux_of_inactive hwf.keys_nodup hl (by simp [hproc]) 0
    simp only [ProcessingQueue.add, hl]
    rw [if_pos (Or.inr (Or.inl hproc))]
    exact ⟨rfl, hpos0⟩
  · intro k hpos
    exact getPositionAux_pos hwf.keys_nodup hpos

def c10_s : ProcessingQueue :=
  (ProcessingQueue.worker_start none 0
    (ProcessingQueue.add none "call-X" none false 0 ProcessingQueue.init).2.1).1

theorem C10_position_zero_for_processing_witness :
    dictLookup c10_s.items "call-X" =
      some { call_id := "call-X", status := QueueItemStatus.processing,
             attempt := 1, added_at := 0, started_at := some 0 } ∧
    (ProcessingQueue.add none "call-X" none true 5 c10_s).1.status =
      "already_queued" ∧
    (ProcessingQueue.add none "call-X" none true 5 c10_s).1.position = 0 := by
  have h1 : Reachable (ProcessingQueue.add none "call-X" none false 0
      ProcessingQueue.init).2.1 :=
    Reachable.step Reachable.init
      (Step.add none "call-X" none false 0 ProcessingQueue.init)
  have h2 : Reachable c10_s :=
    Reachable.step h1 (Step.worker_start none 0 _ (by decide))
  obtain ⟨hmain, _⟩ := C10_position_zero_for_processing h2
  obtain ⟨ha, hb⟩ := hmain none "call-X"
    { call_id := "call-X", status := QueueItemStatus.processing,
      attempt := 1, added_at := 0, started_at := some 0 }
    none true 5 (by decide) (by decide)
  exact ⟨by decide, ha, hb⟩

/-! ### Claim C6 -/

theorem filter_active_of_clear (d : Dict) :
    (d.filter (fun p => ¬(p.2.status = QueueItemStatus.pending ∨
        p.2.status = QueueItemStatus.retrying))).filter
      (fun p => p.2.status = QueueItemStatus.pending ∨
        p.2.status = QueueItemStatus.retrying) = [] := by
  rw [List.filter_eq_nil_iff]
  intro p hp
  have h : ¬(p.2.status = QueueItemStatus.pending ∨
      p.2.status = QueueItemStatus.retrying) := by
    simpa using List.of_mem_filter hp
  simpa using h

/-- C6: `clear` removes exactly the Pending/Retrying items from the lookup
index (and everything queued was such an item), empties the internal queue,
reports the removed ids and their count, and leaves a Processing item in
the index, with `_current` (hence `get_status().processing`) untouched;
afterwards `get_status().pending_items` is empty. -/
theorem C6_clear_spares_processing {s : ProcessingQueue} (bf : BroadcastFn)
    (hreach : Reachable s) :
    (ProcessingQueue.clear bf s).2.1.items =
      s.items.filter (fun p => ¬(p.2.status = QueueItemStatus.pending ∨
        p.2.status = QueueItemStatus.retrying)) ∧
    (ProcessingQueue.clear bf s).1.call_ids =
      (s.items.filter (fun p => p.2.status = QueueItemStatus.pending ∨
        p.2.status = QueueItemStatus.retrying)).map Prod.fst ∧
    (ProcessingQueue.clear bf s).1.cleared =
      (ProcessingQueue.clear bf s).1.call_ids.length ∧
    (ProcessingQueue.clear bf s).2.1.queue = [] ∧
    (∀ cid ∈ s.queue, cid ∈ (ProcessingQueue.clear bf s).1.call_ids) ∧
    (∀ p ∈ s.items, p.2.status = QueueItemStatus.processing →
      p ∈ (ProcessingQueue.clear bf s).2.1.items) ∧
    (ProcessingQueue.clear bf s).2.1.current = s.current ∧
    (ProcessingQueue.clear bf s).2.1.get_status.processing =
      s.current.map QueueItem.to_dict ∧
    (ProcessingQueue.clear bf s).2.1.get_status.pending_items = [] := by
  have hwf := reachable_wf hreach
  refine ⟨rfl, rfl, rfl, rfl, ?_, ?_, rfl, rfl, ?_⟩
  · intro cid hcid
    obtain ⟨it, hl, hact⟩ := hwf.queue_active cid hcid
    exact List.mem_map.2 ⟨(cid, it),
      List.mem_filter.2 ⟨dictLookup_mem hl, by simpa using hact⟩, rfl⟩
  · intro p hp hproc
    refine List.mem_filter.2 ⟨hp, ?_⟩
    simp [hproc]
  · simp only [ProcessingQueue.clear, ProcessingQueue.get_status]
    rw [filter_active_of_clear]
    rfl

def c6_s : ProcessingQueue :=
  (ProcessingQueue.add none "call-B" none false 1
    (ProcessingQueue.worker_start none 0
      (ProcessingQueue.add none "call-A2" none false 0
        ProcessingQueue.init).2.1).1).2.1

theorem C6_clear_spares_processing_witness :
    (ProcessingQueue.clear none c6_s).1.cleared = 1 ∧
    (ProcessingQueue.clear none c6_s).1.call_ids = ["call-B"] ∧
    (ProcessingQueue.clear none c6_s).2.1.get_status.pending_items = [] ∧
    (ProcessingQueue.clear none c6_s).2.1.get_status.processing =
      c6_s.current.map QueueItem.to_dict ∧
    (ProcessingQueue.clear none c6_s).2.1.current = c6_s.current := by
  have h1 : Reachable (ProcessingQueue.add none "call-A2" none false 0
      ProcessingQueue.init).2.1 :=
    Reachable.step Reachable.init
      (Step.add none "call-A2" none false 0 ProcessingQueue.init)
  have h2 : Reachable (ProcessingQueue.worker_start none 0
      (ProcessingQueue.add none "call-A2" none false 0
        ProcessingQueue.init).2.1).1 :=
    Reachable.step h1 (Step.worker_start none 0 _ (by decide))
  have h3 : Reachable c6_s :=
    Reachable.step h2 (Step.add none "call-B" none false 1 _)
  obtain ⟨_, hids, hcnt, _, _, _, hcur, hproc, hpend⟩ :=
    C6_clear_spares_processing none h3
  refine ⟨?_, ?_, hpend, hproc, hcur⟩
  · rw [hcnt, hids]; decide
  · rw [hids]; decide

/-! ### Claim C8 -/

def c8_cycle (s : ProcessingQueue) (k : String) : ProcessingQueue :=
  (ProcessingQueue.worker_finish none (Except.ok ()) 0
    (ProcessingQueue.worker_start none 0
      (ProcessingQueue.add none k none false 0 s).2.1).1).1

def c8_state : ProcessingQueue :=
  (["c01", "c02", "c03", "c04", "c05", "c06", "c07", "c08", "c09", "c10",
    "c11"]).foldl c8_cycle ProcessingQueue.init

/-- C8 counterexample: after 11 items complete, the retained completed
history holds all 11 (≤ 50), but `get_status` reports only the last 10 in
`recent_completed` — the report is a 10-element slice, not the up-to-50
retained history the claim describes. -/
theorem C8_counterexample_ten_not_fifty :
    c8_state.completed.length = 11 ∧
    c8_state.get_status.completed_count = 11 ∧
    c8_state.get_status.recent_completed.length = 10 ∧
    ∃ it ∈ c8_state.completed,
      it.to_dict ∉ c8_state.get_status.recent_completed := by
  decide

/-- C8 amended: `get_status` reports `pending_items`, the processing item
or `none`, and the last **10** entries of the retained bounded histories;
the retained histories themselves keep at most the 50 most recent completed
and permanently failed items. -/
theorem C8_amended_last_ten_of_bounded {s : ProcessingQueue}
    (hreach : Reachable s) :
    s.completed.length ≤ 50 ∧ s.failed.length ≤ 50 ∧
    s.get_status.recent_completed =
      (lastN 10 s.completed).map QueueItem.to_dict ∧
    s.get_status.recent_failed = (lastN 10 s.failed).map QueueItem.to_dict ∧
    s.get_status.recent_completed.length ≤ 10 ∧
    s.get_status.recent_failed.length ≤ 10 ∧
    s.get_status.processing = s.current.map QueueItem.to_dict ∧
    s.get_status.completed_count = s.completed.length ∧
    s.get_status.failed_count = s.failed.length := by
  have hwf := reachable_wf hreach
  refine ⟨hwf.completed_le, hwf.failed_le, rfl, rfl, ?_, ?_, rfl, rfl, rfl⟩
  · show ((lastN 10 s.completed).map QueueItem.to_dict).length ≤ 10
    rw [List.length_map]
    exact lastN_length_le _ _
  · show ((lastN 10 s.failed).map QueueItem.to_dict).length ≤ 10
    rw [List.length_map]
    exact lastN_length_le _ _

theorem C8_amended_last_ten_of_bounded_witness :
    ProcessingQueue.init.completed.length ≤ 50 ∧
    ProcessingQueue.init.failed.length ≤ 50 ∧
    ProcessingQueue.init.get_status.recent_completed =
      (lastN 10 ProcessingQueue.init.completed).map QueueItem.to_dict ∧
    ProcessingQueue.init.get_status.recent_failed =
      (lastN 10 ProcessingQueue.init.failed).map QueueItem.to_dict ∧
    ProcessingQueue.init.get_status.recent_completed.length ≤ 10 ∧
    ProcessingQueue.init.get_status.recent_failed.length ≤ 10 ∧
    ProcessingQueue.init.get_status.processing =
      ProcessingQueue.init.current.map QueueItem.to_dict ∧
    ProcessingQueue.init.get_status.completed_count =
      ProcessingQueue.init.completed.length ∧
    ProcessingQueue.init.get_status.failed_count =
      ProcessingQueue.init.failed.length :=
  C8_amended_last_ten_of_bounded Reachable.init

/-! ### Claim C9 -/

/-- C9: every state transition attempts a status broadcast, and the
broadcast function's outcome (including a raised exception, modelled as
`Except.error`) never influences the operation's result or the resulting
queue state: for any two injected broadcast functions `f` and `g`, each
operation returns the same result and state. The non-transition paths
(`already_queued`, stage mismatch, dead-item skip) attempt no broadcast. -/
theorem C9_broadcast_attempted_and_swallowed
    (f g : QueueStatusDict → Except String Unit) :
    (∀ (k : String) (rec : Option String) (force : Bool) (now : Nat)
        (s : ProcessingQueue),
      (ProcessingQueue.add (some f) k rec force now s).1 =
        (ProcessingQueue.add (some g) k rec force now s).1 ∧
      (ProcessingQueue.add (some f) k rec force now s).2.1 =
        (ProcessingQueue.add (some g) k rec force now s).2.1 ∧
      ((ProcessingQueue.add (some f) k rec force now s).1.status = "queued" →
        (ProcessingQueue.add (some f) k rec force now s).2.2 =
          [f (ProcessingQueue.add (some f) k rec force now s).2.1.get_status]) ∧
      ((ProcessingQueue.add (some f) k rec force now s).1.status =
          "already_queued" →
        (ProcessingQueue.add (some f) k rec force now s).2.2 = [])) ∧
    (∀ s : ProcessingQueue,
      (ProcessingQueue.clear (some f) s).1 =
        (ProcessingQueue.clear (some g) s).1 ∧
      (ProcessingQueue.clear (some f) s).2.1 =
        (ProcessingQueue.clear (some g) s).2.1 ∧
      (ProcessingQueue.clear (some f) s).2.2 =
        [f (ProcessingQueue.clear (some f) s).2.1.get_status]) ∧
    (∀ (k stage : String) (s : ProcessingQueue),
      (ProcessingQueue.update_stage (some f) k stage s).1 =
        (ProcessingQueue.update_stage (some g) k stage s).1 ∧
      (∀ cur, s.current = some cur → cur.call_id = k →
        (ProcessingQueue.update_stage (some f) k stage s).2 =
          [f (ProcessingQueue.update_stage (some f) k stage s).1.get_status])) ∧
    (∀ (now : Nat) (s : ProcessingQueue),
      (ProcessingQueue.worker_start (some f) now s).1 =
        (ProcessingQueue.worker_start (some g) now s).1 ∧
      (∀ cid rest it, s.queue = cid :: rest →
        dictLookup s.items cid = some it →
        (ProcessingQueue.worker_start (some f) now s).2 =
          [f (ProcessingQueue.worker_start (some f) now s).1.get_status])) ∧
    (∀ (res : Except String Unit) (now : Nat) (s : ProcessingQueue),
      (ProcessingQueue.worker_finish (some f) res now s).1 =
        (ProcessingQueue.worker_finish (some g) res now s).1 ∧
      (∀ it, s.current = some it →
        (ProcessingQueue.worker_finish (some f) res now s).2 =
          [f (ProcessingQueue.worker_finish (some f) res now s).1.get_status])) := by
  refine ⟨?_, ?_, ?_, ?_, ?_⟩
  · intro k rec force now s
    unfold ProcessingQueue.add
    split
    next existing heq =>
      split
      next =>
        exact ⟨rfl, rfl,
          fun h => absurd (show ("already_queued" : String) = "queued" from h)
            (by decide),
          fun _ => rfl⟩
      next =>
        exact ⟨rfl, rfl, fun _ => rfl,
          fun h => absurd (show ("queued" : String) = "already_queued" from h)
            (by decide)⟩
    next heq =>
      exact ⟨rfl, rfl, fun _ => rfl,
        fun h => absurd (show ("queued" : String) = "already_queued" from h)
          (by decide)⟩
  · intro s
    exact ⟨rfl, rfl, rfl⟩
  · intro k stage s
    unfold ProcessingQueue.update_stage
    split
    next cur heq =>
      split
      next => exact ⟨rfl, fun _ _ _ => rfl⟩
      next hid =>
        refine ⟨rfl, fun cur' hcur' hid' => ?_⟩
        rw [heq] at hcur'
        injection hcur' with hh
        rw [← hh] at hid'
        exact absurd hid' hid
    next heq =>
      refine ⟨rfl, fun cur' hcur' _ => ?_⟩
      rw [heq] at hcur'
      cases hcur'
  · intro now s
    unfold ProcessingQueue.worker_start
    split
    next heq =>
      refine ⟨rfl, fun cid rest it hq' _ => ?_⟩
      rw [heq] at hq'
      cases hq'
    next cid rest heq =>
      split
      next hl =>
        refine ⟨rfl, fun cid' rest' it hq' hl' => ?_⟩
        rw [heq] at hq'
        injection hq' with h1 h2
        rw [← h1] at hl'
        rw [hl] at hl'
        cases hl'
      next item hl => exact ⟨rfl, fun _ _ _ _ _ => rfl⟩
  · intro res now s
    unfold ProcessingQueue.worker_finish
    split
    next heq =>
      refine ⟨rfl, fun it hit => ?_⟩
      rw [heq] at hit
      cases hit
    next item heq =>
      split
      next => exact ⟨rfl, fun _ _ => rfl⟩
      next msg =>
        split
        next => exact ⟨rfl, fun _ _ => rfl⟩
        next => exact ⟨rfl, fun _ _ => rfl⟩

def c9_err : QueueStatusDict → Except String Unit := fun _ => Except.error "boom"

def c9_okfn : QueueStatusDict → Except String Unit := fun _ => Except.ok ()

theorem C9_broadcast_attempted_and_swallowed_witness :
    (ProcessingQueue.add (some c9_err) "a" none false 0
        ProcessingQueue.init).1 =
      (ProcessingQueue.add (some c9_okfn) "a" none false 0
        ProcessingQueue.init).1 ∧
    (ProcessingQueue.add (some c9_err) "a" none false 0
        ProcessingQueue.init).2.1 =
      (ProcessingQueue.add (some c9_okfn) "a" none false 0
        ProcessingQueue.init).2.1 ∧
    (ProcessingQueue.add (some c9_err) "a" none false 0
        ProcessingQueue.init).2.2 = [Except.error "boom"] ∧
    (ProcessingQueue.clear (some c9_err) ProcessingQueue.init).2.2 =
      [Except.error "boom"] := by
  obtain ⟨hadd, hclear, _, _, _⟩ :=
    C9_broadcast_attempted_and_swallowed c9_err c9_okfn
  obtain ⟨h1, h2, h3, _⟩ := hadd "a" none false 0 ProcessingQueue.init
  obtain ⟨_, _, hc3⟩ := hclear ProcessingQueue.init
  exact ⟨h1, h2, (h3 rfl).trans rfl, hc3.trans rfl⟩

/-! ### Claim C5 -/

def c5_s1 : ProcessingQueue :=
  (ProcessingQueue.add none "call-F" (some "r.wav") false 0
    ProcessingQueue.init).2.1

def c5_s2 : ProcessingQueue := (ProcessingQueue.worker_start none 0 c5_s1).1

def c5_s3 : ProcessingQueue :=
  (ProcessingQueue.worker_finish none (Except.error "err-1") 0 c5_s2).1

def c5_s4 : ProcessingQueue := (ProcessingQueue.worker_start none 0 c5_s3).1

def c5_s5 : ProcessingQueue :=
  (ProcessingQueue.worker_finish none (Except.error "err-2") 10 c5_s4).1

def c5_s6 : ProcessingQueue := (ProcessingQueue.worker_start none 10 c5_s5).1

def c5_s7 : ProcessingQueue :=
  (ProcessingQueue.worker_finish none (Except.error "err-3") 30 c5_s6).1

/-- C5: a processing function that raises on every invocation leaves the
item, after exactly 3 attempts, Failed with the last error message
recorded, present in `recent_failed`, and absent from both the lookup
index and `pending_items`; after the second failure it was still only
Retrying with attempt 2. -/
theorem C5_always_fails_three_attempts :
    c5_s7.failed.map
      (fun it => (it.call_id, it.status, it.attempt, it.error_message)) =
      [("call-F", QueueItemStatus.failed, 3, some "err-3")] ∧
    c5_s7.get_status.recent_failed.map
      (fun d => (d.call_id, d.status, d.attempt, d.error_message)) =
      [("call-F", "failed", 3, some "err-3")] ∧
    c5_s7.get_status.pending_items = [] ∧
    dictLookup c5_s7.items "call-F" = none ∧
    c5_s7.queue = [] ∧
    (dictLookup c5_s5.items "call-F").map
      (fun it => (it.status, it.attempt)) =
      some (QueueItemStatus.retrying, 2) := by
  decide

/-! ### Claim C4 -/

def c4_s1 (t0 : Nat) : ProcessingQueue :=
  (ProcessingQueue.add none "call-R" none false t0 ProcessingQueue.init).2.1

def c4_s2 (t0 u1 : Nat) : ProcessingQueue :=
  (ProcessingQueue.worker_start none u1 (c4_s1 t0)).1

def c4_s3 (t0 u1 v1 : Nat) : ProcessingQueue :=
  (ProcessingQueue.worker_finish none (Except.error "fail-1") v1
    (c4_s2 t0 u1)).1

def c4_s4 (t0 u1 v1 u2 : Nat) : ProcessingQueue :=
  (ProcessingQueue.worker_start none u2 (c4_s3 t0 u1 v1)).1

def c4_s5 (t0 u1 v1 u2 v2 : Nat) : ProcessingQueue :=
  (ProcessingQueue.worker_finish none (Except.error "fail-2") v2
    (c4_s4 t0 u1 v1 u2)).1

def c4_s6 (t0 u1 v1 u2 v2 u3 : Nat) : ProcessingQueue :=
  (ProcessingQueue.worker_start none u3 (c4_s5 t0 u1 v1 u2 v2)).1

def c4_s7 (t0 u1 v1 u2 v2 u3 w : Nat) : ProcessingQueue :=
  (ProcessingQueue.worker_finish none (Except.ok ()) w
    (c4_s6 t0 u1 v1 u2 v2 u3)).1

set_option maxHeartbeats 1600000 in
/-- C4: an item whose processing function fails twice then succeeds ends
Completed with `attempt = 3` and is recorded in `recent_completed`; the
first failure schedules a retry `5 * 2^1 = 10` seconds out and the second
`5 * 2^2 = 20` seconds out, and since each retry cannot start before its
`next_retry_at`, completion comes at least 10 + 20 seconds after the first
start. Times are symbolic: `u1, u2, u3` are the worker's dequeue times,
`v1, v2, w` the finish times, each no earlier than the matching start. -/
theorem C4_fail_twice_then_succeed (t0 u1 v1 u2 v2 u3 w : Nat)
    (h1 : u1 ≤ v1) (h2 : max u2 (v1 + 10) ≤ v2)
    (h3 : max u3 (v2 + 20) ≤ w) :
    (dictLookup (c4_s3 t0 u1 v1).items "call-R").map
      (fun it => (it.status, it.attempt, it.next_retry_at)) =
      some (QueueItemStatus.retrying, 1, some (v1 + 10)) ∧
    (dictLookup (c4_s5 t0 u1 v1 u2 v2).items "call-R").map
      (fun it => (it.status, it.attempt, it.next_retry_at)) =
      some (QueueItemStatus.retrying, 2, some (v2 + 20)) ∧
    (c4_s7 t0 u1 v1 u2 v2 u3 w).completed.map
      (fun it => (it.call_id, it.status, it.attempt, it.started_at,
        it.completed_at)) =
      [("call-R", QueueItemStatus.completed, 3, some (max u3 (v2 + 20)),
        some w)] ∧
    (c4_s7 t0 u1 v1 u2 v2 u3 w).get_status.recent_completed.map
      (fun d => (d.call_id, d.status, d.attempt)) =
      [("call-R", "completed", 3)] ∧
    u1 + 30 ≤ w := by
  refine ⟨rfl, rfl, rfl, rfl, ?_⟩
  have hv2 : v1 + 10 ≤ v2 := le_trans (le_max_right u2 (v1 + 10)) h2
  have hw : v2 + 20 ≤ w := le_trans (le_max_right u3 (v2 + 20)) h3
  omega

theorem C4_fail_twice_then_succeed_witness :
    (0 : Nat) ≤ 0 ∧ max 0 (0 + 10) ≤ 10 ∧ max 0 (10 + 20) ≤ 30 ∧
    ((c4_s7 0 0 0 0 10 0 30).completed.map
      (fun it => (it.call_id, it.status, it.attempt, it.started_at,
        it.completed_at)) =
      [("call-R", QueueItemStatus.completed, 3, some (max 0 (10 + 20)),
        some 30)] ∧
     0 + 30 ≤ 30) := by
  obtain ⟨_, _, ha, _, hb⟩ := C4_fail_twice_then_succeed 0 0 0 0 10 0 30
    (by decide) (by decide) (by decide)
  exact ⟨by decide, by decide, by decide, ha, hb⟩

/-! ### Claim C7 -/

def c7_a1 : ProcessingQueue :=
  (ProcessingQueue.add none "A" none false 0 ProcessingQueue.init).2.1

def c7_a2 : ProcessingQueue := (ProcessingQueue.worker_start none 0 c7_a1).1

def c7_a3 : ProcessingQueue :=
  (ProcessingQueue.worker_finish none (Except.error "boom") 0 c7_a2).1

def c7_b4 : ProcessingQueue :=
  (ProcessingQueue.add none "B" none false 1 c7_a3).2.1

def c7_s5 : ProcessingQueue := (ProcessingQueue.worker_start none 1 c7_b4).1

def c7_s6 : ProcessingQueue :=
  (ProcessingQueue.worker_finish none (Except.error "boom") 10 c7_s5).1

def c7_s7 : ProcessingQueue := (ProcessingQueue.worker_start none 10 c7_s6).1

def c7_s8 : ProcessingQueue :=
  (ProcessingQueue.worker_finish none (Except.ok ()) 11 c7_s7).1

def c7_s9 : ProcessingQueue := (ProcessingQueue.worker_start none 11 c7_s8).1

def c7_s10 : ProcessingQueue :=
  (ProcessingQueue.worker_finish none (Except.ok ()) 30 c7_s9).1

/-- C7: fresh submissions join the back of the queue and the worker always
consumes the head, so fresh items are served in strict FIFO submission
order; a retried item re-enters at the back. In the concrete schedule
below, item B is submitted at time 1 while item A is Retrying inside its
first backoff window (until time 10); after A's second failure re-enqueues
A behind B, B completes at time 11 before A's completion at time 30. -/
theorem C7_fifo_retry_at_back_overtake :
    (∀ (bf : BroadcastFn) (k : String) (rec : Option String) (force : Bool)
        (now : Nat) (s : ProcessingQueue),
      dictLookup s.items k = none →
      (ProcessingQueue.add bf k rec force now s).2.1.queue =
        s.queue ++ [k]) ∧
    (∀ (bf : BroadcastFn) (now : Nat) (s : ProcessingQueue)
        (cid : String) (rest : List String) (it : QueueItem),
      s.queue = cid :: rest → dictLookup s.items cid = some it →
      (ProcessingQueue.worker_start bf now s).1.queue = rest ∧
      ∃ it', (ProcessingQueue.worker_start bf now s).1.current = some it' ∧
        it'.call_id = it.call_id) ∧
    (∀ (bf : BroadcastFn) (msg : String) (now : Nat) (s : ProcessingQueue)
        (item : QueueItem),
      s.current = some item → item.attempt < item.max_retries →
      (ProcessingQueue.worker_finish bf (Except.error msg) now s).1.queue =
        s.queue ++ [item.call_id]) ∧
    ((dictLookup c7_a3.items "A").map
        (fun it => (it.status, it.next_retry_at)) =
      some (QueueItemStatus.retrying, some 10) ∧
     c7_b4.queue = ["A", "B"] ∧
     c7_s6.queue = ["B", "A"] ∧
     c7_s10.completed.map (fun it => (it.call_id, it.completed_at)) =
       [("B", some 11), ("A", some 30)] ∧
     (11 : Nat) < 30) := by
  refine ⟨?_, ?_, ?_, by decide⟩
  · intro bf k rec force now s habs
    simp only [ProcessingQueue.add, habs, ProcessingQueue.add.addFresh]
  · intro bf now s cid rest it hq hl
    simp only [ProcessingQueue.worker_start, hq, hl]
    exact ⟨trivial, ⟨_, rfl, rfl⟩⟩
  · intro bf msg now s item hcur hlt
    simp only [ProcessingQueue.worker_finish, hcur]
    rw [if_pos hlt]

theorem C7_fifo_retry_at_back_overtake_witness :
    dictLookup ProcessingQueue.init.items "x" = none ∧
    (ProcessingQueue.add none "x" none false 0
      ProcessingQueue.init).2.1.queue = ["x"] ∧
    ((ProcessingQueue.worker_start none 1 c7_b4).1.queue = ["B"] ∧
      ∃ it', (ProcessingQueue.worker_start none 1 c7_b4).1.current =
        some it' ∧ it'.call_id = "A") ∧
    (ProcessingQueue.worker_finish none (Except.error "m") 7
      c7_s5).1.queue = ["B", "A"] := by
  obtain ⟨p1, p2, p3, _⟩ := C7_fifo_retry_at_back_overtake
  have hq2 := p2 none 1 c7_b4 "A" ["B"]
    { call_id := "A", status := QueueItemStatus.retrying, attempt := 1,
      error_message := some "boom", added_at := 0, started_at := some 0,
      next_retry_at := some 10 }
    (by decide) (by decide)
  have hq3 := p3 none "m" 7 c7_s5
    { call_id := "A", status := QueueItemStatus.processing, attempt := 2,
      error_message := some "boom", added_at := 0,
      started_at := some (max 1 10), next_retry_at := some 10 }
    (by decide) (by decide)
  exact ⟨by decide, p1 none "x" none false 0 ProcessingQueue.init (by decide),
    hq2, hq3.trans (by decide)⟩

end Yeastar
